import Mathlib

/-!
Verification development for the PDF-to-Markdown layout reconstruction in
`garakPDFparser.py` (class `PDFToMarkdownConverter` plus module helpers).

Embedding conventions:
* Python floats are modelled as rationals (`ℚ`); `round(x, 1)` is modelled as
  `round (10 * x) / 10` (ties at exact multiples of 0.05 round half-up; such
  exact ties are immaterial to the statements below).
* A pdfplumber character dict `{text, size, x0, x1, top, bottom}` becomes the
  structure `PdfChar`; a missing size is `none`.  Python truthiness of
  `char.get('size')` (absent or `0` is falsy) is modelled explicitly.
* `collections.Counter` preserves key insertion order and `most_common` sorts
  stably by descending count, so ties are broken by first insertion: it is
  modelled as an association list (`counterAdd` / `mostCommon1`).
* Python's stable `sorted` is modelled with `List.mergeSort` (also stable).
* String helpers (`strip`, `startswith`, `endswith`, `re.sub(r"\s+", " ", ·)`)
  are modelled structurally over `String.data`; whitespace is
  `Char.isWhitespace`.
* `table.extract()`, which may raise, is modelled as an `Except`-valued field
  of the externally supplied table object.
-/

namespace GarakPDF

/-- One positioned character of a page, as consumed from pdfplumber:
`{text, size, x0, x1, top, bottom}` with `size` possibly absent. -/
structure PdfChar where
  text : String
  size : Option ℚ
  x0 : ℚ
  x1 : ℚ
  top : ℚ
  bottom : ℚ
deriving DecidableEq

/-- `collections.Counter` update `counter[k] += 1`: bump the first entry with
key `k`, or append a fresh entry at the end (insertion order preserved). -/
def counterAdd : List (ℚ × ℕ) → ℚ → List (ℚ × ℕ)
  | [], k => [(k, 1)]
  | (k', n) :: rest, k =>
    if k' = k then (k', n + 1) :: rest else (k', n) :: counterAdd rest k

/-- Build a Counter from a list of values, in order. -/
def counterOf (l : List ℚ) : List (ℚ × ℕ) := l.foldl counterAdd []

/-- One step of `most_common(1)`: keep the running best, replacing it only on
a strictly larger count (so ties go to the earlier key). -/
def mcStep (acc : Option (ℚ × ℕ)) (kn : ℚ × ℕ) : Option (ℚ × ℕ) :=
  match acc with
  | none => some kn
  | some best => if kn.2 > best.2 then some kn else some best

/-- `counter.most_common(1)`: the first (in insertion order) key with maximal
count, as `most_common` sorts stably by descending count. -/
def mostCommon1 (c : List (ℚ × ℕ)) : Option (ℚ × ℕ) :=
  c.foldl mcStep none

/-- `round(s, 1)`: round to one decimal place. -/
def round1 (s : ℚ) : ℚ := (round (10 * s) : ℤ) / 10

/-- The per-character update of `_analyze_document_structure`:
`if char.get('size'): self.font_sizes[round(float(char['size']), 1)] += 1`
(a size that is absent or `0` is falsy and skipped). -/
def countChar (acc : List (ℚ × ℕ)) (c : PdfChar) : List (ℚ × ℕ) :=
  match c.size with
  | some s => if s ≠ 0 then counterAdd acc (round1 s) else acc
  | none => acc

/-- `_analyze_document_structure`: one pass over every page's characters,
building the global font-size histogram `self.font_sizes`. -/
def analyze_document_structure (pages : List (List PdfChar)) : List (ℚ × ℕ) :=
  pages.foldl (fun acc chars => chars.foldl countChar acc) []

/-- Python `str.strip()`: drop leading and trailing whitespace. -/
def stripStr (s : String) : String :=
  String.mk (((s.data.dropWhile Char.isWhitespace).reverse.dropWhile
    Char.isWhitespace).reverse)

/-- Helper for `clean_text`: the words of a character list (maximal runs of
non-whitespace), with `cur` the reversed current run. -/
def splitWSAux : List Char → List Char → List String
  | [], cur => if cur.isEmpty then [] else [String.mk cur.reverse]
  | c :: cs, cur =>
    if c.isWhitespace then
      if cur.isEmpty then splitWSAux cs [] else String.mk cur.reverse :: splitWSAux cs []
    else splitWSAux cs (c :: cur)

/-- `_clean_text`: `re.sub(r"\s+", " ", text).strip()`, i.e. collapse each
whitespace run to one space and trim — equivalently, join the whitespace-split
words of the text with single spaces. -/
def clean_text (text : String) : String :=
  String.intercalate " " (splitWSAux text.data [])

/-- Python `s.endswith(suf)`, modelled structurally over the character data. -/
def endsWithStr (s suf : String) : Bool := suf.data.isSuffixOf s.data

/-- Python `s.startswith(pre)`, modelled structurally over the character data. -/
def startsWithStr (s p : String) : Bool := p.data.isPrefixOf s.data

/-- `_is_heading(font_size, text)`: heading iff the document font profile is
non-empty, `font_size >= 1.1 * body_size`, `font_size > body_size`, and the
stripped text is short (< 100 chars) or does not end in `.` or `,`.
The two early `return False` branches (`not self.font_sizes` and
`not most_common_size`) are both the `mostCommon1 = none` case. -/
def is_heading (fontSizes : List (ℚ × ℕ)) (font_size : ℚ) (text : String) : Bool :=
  match mostCommon1 fontSizes with
  | none => false
  | some (body_size, _) =>
    let size_threshold := body_size * (11 / 10 : ℚ)
    let is_larger := decide (font_size ≥ size_threshold)
    let is_short := decide ((stripStr text).length < 100)
    let no_period := !endsWithStr (stripStr text) "." && !endsWithStr (stripStr text) ","
    is_larger && decide (font_size > body_size) && (is_short || no_period)

/-- `_format_as_heading(text, font_size)`: pick the Markdown heading depth from
`font_size / body_size` (ratio defaults to `1.0` when `body_size <= 0`); an
empty font profile yields the `## ` default. -/
def format_as_heading (fontSizes : List (ℚ × ℕ)) (text : String) (font_size : ℚ) : String :=
  match mostCommon1 fontSizes with
  | none => "## " ++ text
  | some (body_size, _) =>
    let size_ratio := if body_size > 0 then font_size / body_size else 1
    if size_ratio ≥ 2 then "# " ++ text
    else if size_ratio ≥ 17 / 10 then "## " ++ text
    else if size_ratio ≥ 14 / 10 then "### " ++ text
    else if size_ratio ≥ 12 / 10 then "#### " ++ text
    else "##### " ++ text

/-- Comparator for Python `sorted(line, key=lambda c: c['x0'])`. -/
def x0le (a b : PdfChar) : Bool := decide (a.x0 ≤ b.x0)

/-- The sizes a line contributes to font statistics: present and non-zero
(truthiness of `char.get('size', 0)`). -/
def lineSizes (line : List PdfChar) : List ℚ :=
  line.filterMap fun c =>
    match c.size with
    | some s => if s ≠ 0 then some s else none
    | none => none

/-- `_process_line(line)`: concatenate the texts of the characters sorted by
`x0` and return the line's dominant (most frequent, first-seen tie-break) font
size, `0.0` when no character has a truthy size. -/
def process_line (line : List PdfChar) : String × ℚ :=
  match line with
  | [] => ("", 0)
  | _ =>
    let sorted_line := line.mergeSort x0le
    let line_text := String.join (sorted_line.map (·.text))
    let dominant_size :=
      match mostCommon1 (counterOf (lineSizes sorted_line)) with
      | some p => p.1
      | none => 0
    (line_text, dominant_size)

/-- `min(char['top'] for char in line)` (0 for the empty line, unused). -/
def lineTop : List PdfChar → ℚ
  | [] => 0
  | c :: cs => cs.foldl (fun m ch => min m ch.top) c.top

/-- `max(char['bottom'] for char in line)` (0 for the empty line, unused). -/
def lineBottom : List PdfChar → ℚ
  | [] => 0
  | c :: cs => cs.foldl (fun m ch => max m ch.bottom) c.bottom

/-- Comparator for `heights.sort()` on rationals. -/
def qle (a b : ℚ) : Bool := decide (a ≤ b)

/-- `_get_median_line_height(lines)`: collect each line's dominant truthy font
size, sort, and take the median — for an even count the average of the two
middle values (`heights[mid]` and `heights[~mid]`, i.e. index `mid - 1`);
default `12` when no height is observed. -/
def get_median_line_height (lines : List (List PdfChar)) : ℚ :=
  let heights := lines.filterMap fun line =>
    match line with
    | [] => none
    | _ => (mostCommon1 (counterOf (lineSizes line))).map (·.1)
  match heights with
  | [] => 12
  | _ =>
    let s := heights.mergeSort qle
    let mid := heights.length / 2
    if heights.length % 2 = 0 then (s.getD mid 0 + s.getD (mid - 1) 0) / 2
    else s.getD mid 0

/-- The loop of `_group_lines_into_blocks` after the first non-empty line:
`cur` is the running `current_block` (always non-empty here: it holds at least
the previously processed line), `prevBottom` the previous line's bottom.  A
vertical gap above `thr` closes the current block.  The final
`if current_block: blocks.append(current_block)` is the `[cur]` base case. -/
def group_lines_aux (thr : ℚ) :
    List (List PdfChar) → ℚ → List (List PdfChar) → List (List (List PdfChar))
  | cur, _, [] => [cur]
  | cur, prevBottom, line :: rest =>
    match line with
    | [] => group_lines_aux thr cur prevBottom rest
    | _ =>
      if lineTop line - prevBottom > thr then
        cur :: group_lines_aux thr [line] (lineBottom line) rest
      else
        group_lines_aux thr (cur ++ [line]) (lineBottom line) rest

/-- The lead-in of the `_group_lines_into_blocks` loop: skip empty lines while
`prev_line_bottom is None`; the first non-empty line starts `current_block`. -/
def group_lines_start (thr : ℚ) : List (List PdfChar) → List (List (List PdfChar))
  | [] => []
  | line :: rest =>
    match line with
    | [] => group_lines_start thr rest
    | _ => group_lines_aux thr [line] (lineBottom line) rest

/-- `_group_lines_into_blocks(lines)`: threshold is
`1.5 * _get_median_line_height(lines)` (`lines` is non-empty past the guard). -/
def group_lines_into_blocks (lines : List (List PdfChar)) :
    List (List (List PdfChar)) :=
  match lines with
  | [] => []
  | _ => group_lines_start (3 / 2 * get_median_line_height lines) lines

/-- Comparator for `sorted(chars, key=lambda c: (c['top'], c['x0']))`. -/
def topX0le (a b : PdfChar) : Bool :=
  decide (a.top < b.top ∨ (a.top = b.top ∧ a.x0 ≤ b.x0))

/-- `sum(c['top'] + c['bottom'] for c in current_line) / (2 * len(current_line))`:
the running average vertical center of the current line. -/
def lineAvgY (cur : List PdfChar) : ℚ :=
  (cur.map fun c => c.top + c.bottom).sum / (2 * cur.length)

/-- The loop of `_group_chars_into_lines` after the first character: a
character whose vertical center deviates from the running line average by more
than the tolerance `3` closes the current line; closed lines are sorted by
`x0`.  (`current_y_range` is tracked by the source but never read.) -/
def group_chars_aux : List PdfChar → List PdfChar → List (List PdfChar)
  | cur, [] => [cur.mergeSort x0le]
  | cur, c :: rest =>
    if |(c.top + c.bottom) / 2 - lineAvgY cur| ≤ 3 then
      group_chars_aux (cur ++ [c]) rest
    else
      cur.mergeSort x0le :: group_chars_aux [c] rest

/-- `_group_chars_into_lines(chars)`: sort by `(top, x0)`, then scan. -/
def group_chars_into_lines (chars : List PdfChar) : List (List PdfChar) :=
  match chars with
  | [] => []
  | _ =>
    match chars.mergeSort topX0le with
    | [] => []
    | c :: rest => group_chars_aux [c] rest

/-- The per-line rendering step of `_process_text_block`: skip empty lines,
clean the line text, skip blank cleaned text, and format headings. -/
def render_line (fontSizes : List (ℚ × ℕ)) (line : List PdfChar) : Option String :=
  match line with
  | [] => none
  | _ =>
    let pl := process_line line
    let cleaned := clean_text pl.1
    if cleaned = "" then none
    else if is_heading fontSizes pl.2 cleaned then
      some (format_as_heading fontSizes cleaned pl.2)
    else some cleaned

/-- The paragraph-accumulation step of `_process_text_block`: an item starting
with `#` flushes the pending paragraph buffer (joined with single spaces) and
is emitted on its own; any other item is appended to the buffer. -/
def paragraphStep (st : List String × List String) (item : String) :
    List String × List String :=
  if startsWithStr item "#" then
    (st.1 ++ (match st.2 with
              | [] => []
              | buf => [String.intercalate " " buf]) ++ [item], [])
  else (st.1, st.2 ++ [item])

/-- The trailing flush of `_process_text_block`:
`if current_paragraph: final_block_content.append(' '.join(current_paragraph))`. -/
def finishParagraphs (st : List String × List String) : List String :=
  st.1 ++ (match st.2 with
           | [] => []
           | buf => [String.intercalate " " buf])

/-- `_process_text_block(block)`: render each line (phase 1), then group the
rendered items into paragraphs keyed on a leading `#` (phase 2), and join with
line breaks. -/
def process_text_block (fontSizes : List (ℚ × ℕ)) (block : List (List PdfChar)) :
    String :=
  match block with
  | [] => ""
  | _ =>
    let block_lines_md := block.filterMap (render_line fontSizes)
    String.intercalate "\n"
      (finishParagraphs (block_lines_md.foldl paragraphStep ([], [])))

/-- An externally supplied pdfplumber table object: a bounding box
`(x0, top, x1, bottom)` and the outcome of `table.extract()`, which returns a
grid of optional cell strings or raises. -/
structure PdfTable where
  bbox : ℚ × ℚ × ℚ × ℚ
  extract : Except String (List (List (Option String)))

/-- `str(cell).strip() if cell is not None else ""`. -/
def cellStr : Option String → String
  | some s => stripStr s
  | none => ""

/-- One pipe-delimited Markdown table row:
`"| " + " | ".join(cells) + " |"`. -/
def mdRow (cells : List (Option String)) : String :=
  "| " ++ String.intercalate " | " (cells.map cellStr) ++ " |"

/-- `_convert_table_to_markdown(table)`: a failing `table.extract()` or a grid
with fewer than two rows (or an empty header row, which leaves `markdown_table`
empty) yields `""`; otherwise header row, `---` separator per header column,
then one row per non-empty data row. -/
def convert_table_to_markdown (t : PdfTable) : String :=
  match t.extract with
  | .error _ => ""
  | .ok data =>
    if data.length < 2 then ""
    else
      match data with
      | [] => ""
      | headers :: rest =>
        match headers with
        | [] => ""
        | _ =>
          let header_row := mdRow headers
          let separator :=
            "| " ++ String.intercalate " | " (headers.map fun _ => "---") ++ " |"
          let data_rows := rest.filterMap fun row =>
            match row with
            | [] => none
            | _ => some (mdRow row)
          String.intercalate "\n" (header_row :: separator :: data_rows)

/-- One page's input from the external collaborator: its character stream and
its detected tables. -/
structure Page where
  chars : List PdfChar
  tables : List PdfTable

/-- A page element to be ordered by position: a text block or a table. -/
inductive PageElement where
  | text (block : List (List PdfChar))
  | table (t : PdfTable)

/-- The bounding box `(min_x0, min_top, max_x1, max_bottom)` of a text block,
over all characters of all its lines. -/
def blockBBox (block : List (List PdfChar)) : ℚ × ℚ × ℚ × ℚ :=
  match block.flatten with
  | [] => (0, 0, 0, 0)
  | c :: cs =>
    (cs.foldl (fun m ch => min m ch.x0) c.x0,
     cs.foldl (fun m ch => min m ch.top) c.top,
     cs.foldl (fun m ch => max m ch.x1) c.x1,
     cs.foldl (fun m ch => max m ch.bottom) c.bottom)

/-- The bounding box used for ordering a page element. -/
def elemBBox : PageElement → ℚ × ℚ × ℚ × ℚ
  | .text b => blockBBox b
  | .table t => t.bbox

/-- Comparator for `page_elements.sort(key=lambda x: (x['bbox'][1], x['bbox'][0]))`:
lexicographic on `(top, x0)` of the bounding box. -/
def elemKeyLe (a b : PageElement) : Bool :=
  decide ((elemBBox a).2.1 < (elemBBox b).2.1 ∨
    ((elemBBox a).2.1 = (elemBBox b).2.1 ∧ (elemBBox a).1 ≤ (elemBBox b).1))

/-- The Markdown of one page element, kept only when non-blank
(`if block_md.strip():` / `if table_md.strip():`). -/
def renderElem (fontSizes : List (ℚ × ℕ)) : PageElement → Option String
  | .text b =>
    let md := process_text_block fontSizes b
    if stripStr md = "" then none else some md
  | .table t =>
    let md := convert_table_to_markdown t
    if stripStr md = "" then none else some md

/-- `_process_page(page, page_num)`: group characters into lines and blocks
(non-empty blocks become text elements with their bounding boxes), add the
page's tables, stable-sort all elements by `(top, x0)`, render each element,
keep the non-blank renderings, and join them with blank lines. -/
def process_page (fontSizes : List (ℚ × ℕ)) (page : Page) : String :=
  let text_elements :=
    match page.chars with
    | [] => []
    | _ =>
      (group_lines_into_blocks (group_chars_into_lines page.chars)).filterMap
        fun block =>
          match block with
          | [] => none
          | _ => some (PageElement.text block)
  let page_elements := text_elements ++ page.tables.map PageElement.table
  let markdown_parts := (page_elements.mergeSort elemKeyLe).filterMap
    (renderElem fontSizes)
  String.intercalate "\n\n" markdown_parts

/-- `extract_text_with_formatting`: build the document font profile once, then
render each page in order, keeping only pages whose output is non-blank, and
join the kept page outputs with blank lines. -/
def extract_text_with_formatting (pages : List Page) : String :=
  let fontSizes := analyze_document_structure (pages.map (·.chars))
  let markdown_content := pages.foldl
    (fun acc page =>
      let page_content := process_page fontSizes page
      if stripStr page_content = "" then acc else acc ++ [page_content])
    []
  String.intercalate "\n\n" markdown_content

/-! ### Helper lemmas -/

lemma mcStep_some (acc : Option (ℚ × ℕ)) (kn p : ℚ × ℕ) (h : mcStep acc kn = some p) :
    acc = some p ∨ p = kn := by
  match acc with
  | none => simp only [mcStep] at h; right; exact (Option.some_inj.mp h).symm
  | some best =>
    simp only [mcStep] at h
    split at h
    · right; exact (Option.some_inj.mp h).symm
    · left; rw [Option.some_inj.mp h]

lemma foldl_mcStep_mem :
    ∀ (c : List (ℚ × ℕ)) (acc : Option (ℚ × ℕ)) (p : ℚ × ℕ),
      c.foldl mcStep acc = some p → acc = some p ∨ p ∈ c
  | [], acc, p, h => Or.inl h
  | kn :: rest, acc, p, h => by
    rcases foldl_mcStep_mem rest (mcStep acc kn) p h with h' | h'
    · rcases mcStep_some acc kn p h' with h'' | h''
      · exact Or.inl h''
      · exact Or.inr (h'' ▸ List.mem_cons_self kn rest)
    · exact Or.inr (List.mem_cons_of_mem kn h')

lemma mostCommon1_mem {c : List (ℚ × ℕ)} {p : ℚ × ℕ} (h : mostCommon1 c = some p) :
    p ∈ c := by
  rcases foldl_mcStep_mem c none p h with h' | h'
  · exact absurd h' (by simp)
  · exact h'

/-! ### C7: table rendering degrades to the empty string -/

/-- C7: table rendering returns the empty string for every grid with fewer
than 2 rows (in particular the empty grid), and a failing grid extraction is
caught and also yields the empty string, so table rendering never propagates
an exception into page processing. -/
theorem C7_table_rendering_never_fails :
    (∀ (t : PdfTable) (msg : String),
       t.extract = Except.error msg → convert_table_to_markdown t = "") ∧
    (∀ (t : PdfTable) (data : List (List (Option String))),
       t.extract = Except.ok data → data.length < 2 →
       convert_table_to_markdown t = "") := by
  constructor
  · intro t msg h
    unfold convert_table_to_markdown
    rw [h]
  · intro t data h hlen
    unfold convert_table_to_markdown
    rw [h]
    simp only [if_pos hlen]

/-- Concrete instantiation of C7: a table whose extraction raised, and a table
whose grid has a single row, both render to `""`. -/
theorem C7_witness :
    convert_table_to_markdown ⟨(0, 0, 0, 0), Except.error "extraction failed"⟩ = "" ∧
    convert_table_to_markdown ⟨(0, 0, 0, 0), Except.ok [[some "A", some "B"]]⟩ = "" :=
  ⟨C7_table_rendering_never_fails.1 ⟨(0, 0, 0, 0), Except.error "extraction failed"⟩
      "extraction failed" rfl,
   C7_table_rendering_never_fails.2 ⟨(0, 0, 0, 0), Except.ok [[some "A", some "B"]]⟩
      [[some "A", some "B"]] rfl (by decide)⟩

/-! ### C8: Markdown layout of a well-formed table grid -/

lemma filterMap_mdRow_of_nonempty :
    ∀ (rows : List (List (Option String))), (∀ r ∈ rows, r ≠ []) →
      (rows.filterMap fun row =>
        match row with
        | [] => none
        | _ => some (mdRow row)) = rows.map mdRow
  | [], _ => rfl
  | row :: rest, h => by
    match row, h with
    | [], h => exact absurd rfl (h [] (List.mem_cons_self _ _))
    | c :: cs, h =>
      simp only [List.filterMap_cons, List.map_cons]
      rw [filterMap_mdRow_of_nonempty rest fun r hr => h r (List.mem_cons_of_mem _ hr)]

/-- C8: for a well-formed grid — at least a header row and one data row, no
row empty — the rendered Markdown is the pipe-delimited header row, a
separator row with one `---` per header column, then one pipe-delimited row
per data row, with each cell trimmed and an absent cell rendered as `""`
(the cell rendering is `cellStr`, used by `mdRow`). -/
theorem C8_table_markdown_layout :
    ∀ (t : PdfTable) (headers : List (Option String))
      (rest : List (List (Option String))),
      t.extract = Except.ok (headers :: rest) →
      headers ≠ [] → rest ≠ [] → (∀ row ∈ rest, row ≠ []) →
      convert_table_to_markdown t =
        String.intercalate "\n"
          (mdRow headers ::
            ("| " ++ String.intercalate " | " (headers.map fun _ => "---") ++ " |") ::
            rest.map mdRow) := by
  intro t headers rest h hh hr hrows
  have hlen : ¬((headers :: rest).length < 2) := by
    cases rest with
    | nil => exact absurd rfl hr
    | cons a as => simp [List.length_cons]
  simp only [convert_table_to_markdown, h, if_neg hlen]
  match headers, hh with
  | hc :: hcs, _ =>
    rw [filterMap_mdRow_of_nonempty rest hrows]

/-- Concrete instantiation of C8: the spec's example grid
`[["A","B"],["1","2"],["3", null]]` renders to exactly the four lines
`| A | B |`, `| --- | --- |`, `| 1 | 2 |`, `| 3 |  |`. -/
theorem C8_witness :
    convert_table_to_markdown
      ⟨(0, 0, 0, 0), Except.ok
        [[some "A", some "B"], [some "1", some "2"], [some "3", none]]⟩ =
      "| A | B |\n| --- | --- |\n| 1 | 2 |\n| 3 |  |" := by
  rw [C8_table_markdown_layout
    ⟨(0, 0, 0, 0), Except.ok
      [[some "A", some "B"], [some "1", some "2"], [some "3", none]]⟩
    [some "A", some "B"] [[some "1", some "2"], [some "3", none]]
    rfl (by decide) (by decide) (by decide)]
  rfl

/-! ### C2: heading depth from the size ratio -/

/-- The heading depth the spec prescribes for size ratio `r`. -/
def headingDepth (r : ℚ) : ℕ :=
  if r ≥ 2 then 1
  else if r ≥ 17 / 10 then 2
  else if r ≥ 14 / 10 then 3
  else if r ≥ 12 / 10 then 4
  else 5

/-- `n` repetitions of `#`. -/
def hashes (n : ℕ) : String := String.mk (List.replicate n '#')

/-- C2: for every line classified as a heading, when the body size `b` is
positive the rendered heading is `'#' * depth ++ " " ++ text` with the depth
determined by the ratio `s / b` through the thresholds 2.0 / 1.7 / 1.4 / 1.2
(else depth 5). -/
theorem C2_heading_depth_from_ratio :
    ∀ (fs : List (ℚ × ℕ)) (b : ℚ) (n : ℕ) (s : ℚ) (t : String),
      mostCommon1 fs = some (b, n) → 0 < b → is_heading fs s t = true →
      format_as_heading fs t s = hashes (headingDepth (s / b)) ++ " " ++ t := by
  intro fs b n s t h hb _
  simp only [format_as_heading, h, if_pos hb, headingDepth, hashes]
  split_ifs <;> rfl

/-- Concrete instantiation of C2: the spec's round-trip scenario — the line
`Annual Report` at size 24 with body size 12 (ratio 2.0) is classified as a
heading and renders exactly as `# Annual Report`. -/
theorem C2_witness :
    is_heading [((12 : ℚ), 2)] 24 "Annual Report" = true ∧
    format_as_heading [((12 : ℚ), 2)] "Annual Report" 24 = "# Annual Report" := by
  have hmc : mostCommon1 [((12 : ℚ), 2)] = some (12, 2) := rfl
  have hh : is_heading [((12 : ℚ), 2)] 24 "Annual Report" = true := by
    simp only [is_heading, hmc, Bool.and_eq_true, Bool.or_eq_true,
      decide_eq_true_eq]
    refine ⟨⟨by norm_num, by norm_num⟩, Or.inl (by decide)⟩
  refine ⟨hh, ?_⟩
  rw [C2_heading_depth_from_ratio [((12 : ℚ), 2)] 12 2 24 "Annual Report" hmc
    (by norm_num) hh]
  have : (24 : ℚ) / 12 = 2 := by norm_num
  rw [this]
  rfl

/-! ### C3: rendering of a heading when the body size is zero -/

/-- A character with font size 0.04 — a present, truthy size whose 1-decimal
rounding is the bucket `0.0`. -/
def smallSizeChar : PdfChar := ⟨"x", some (1 / 25), 0, 1, 0, 1⟩

lemma smallSizeProfile :
    analyze_document_structure [[smallSizeChar]] = [(0, 1)] := by
  have h0 : ((1 : ℚ) / 25) ≠ 0 := by norm_num
  have h1 : round1 (1 / 25) = 0 := by
    unfold round1
    norm_num [round_eq]
  show countChar [] smallSizeChar = [(0, 1)]
  simp only [countChar, smallSizeChar]
  rw [if_pos h0, h1]
  rfl

/-- Counterexample to C3 as stated: with the document's font profile built
from one character of size 0.04, the body size (most frequent rounded size) is
0, the line `Title` with dominant size 12 *is* classified as a heading, and it
renders at depth 5 (`##### Title`), not at depth 2 (`## Title`). -/
theorem C3_counterexample :
    mostCommon1 (analyze_document_structure [[smallSizeChar]]) = some (0, 1) ∧
    is_heading (analyze_document_structure [[smallSizeChar]]) 12 "Title" = true ∧
    format_as_heading (analyze_document_structure [[smallSizeChar]]) "Title" 12 =
      "##### Title" ∧
    format_as_heading (analyze_document_structure [[smallSizeChar]]) "Title" 12 ≠
      "## Title" := by
  rw [smallSizeProfile]
  have hmc : mostCommon1 [((0 : ℚ), 1)] = some (0, 1) := rfl
  refine ⟨hmc, ?_, ?_, ?_⟩
  · simp only [is_heading, hmc, Bool.and_eq_true, Bool.or_eq_true,
      decide_eq_true_eq]
    refine ⟨⟨by norm_num, by norm_num⟩, Or.inl (by decide)⟩
  · simp only [format_as_heading, hmc]
    norm_num
    rfl
  · simp only [format_as_heading, hmc]
    norm_num
    decide

/-- C3 amended: when a line is classified as a heading and the body size (most
frequent rounded font size) is zero, the heading is rendered at depth 5
(prefix `##### `), because the size ratio defaults to 1.0; the depth-2 default
`## ` applies only when the font profile is empty, in which case no line is
ever classified as a heading. -/
theorem C3_zero_body_size_depth :
    (∀ (fs : List (ℚ × ℕ)) (n : ℕ) (t : String) (s : ℚ),
       mostCommon1 fs = some (0, n) → is_heading fs s t = true →
       format_as_heading fs t s = "##### " ++ t) ∧
    (∀ (t : String) (s : ℚ), format_as_heading [] t s = "## " ++ t) ∧
    (∀ (s : ℚ) (t : String), is_heading [] s t = false) := by
  refine ⟨?_, fun t s => rfl, fun s t => rfl⟩
  intro fs n t s h _
  simp only [format_as_heading, h]
  norm_num

/-- Concrete instantiation of the amended C3: with font profile `{0.0: 1}`,
the heading line `Title` at size 12 renders as `##### Title`. -/
theorem C3_witness :
    format_as_heading [((0 : ℚ), 1)] "Title" 12 = "##### Title" := by
  have hmc : mostCommon1 [((0 : ℚ), 1)] = some (0, 1) := rfl
  have hh : is_heading [((0 : ℚ), 1)] 12 "Title" = true := by
    simp only [is_heading, hmc, Bool.and_eq_true, Bool.or_eq_true,
      decide_eq_true_eq]
    refine ⟨⟨by norm_num, by norm_num⟩, Or.inl (by decide)⟩
  exact C3_zero_body_size_depth.1 [((0 : ℚ), 1)] 1 "Title" 12 hmc hh

/-! ### C1: characterization of the heading classifier -/

lemma round1_nonneg {s : ℚ} (hs : 0 ≤ s) : 0 ≤ round1 s := by
  unfold round1
  have h10 : (0 : ℚ) ≤ 10 * s := by positivity
  have : (0 : ℤ) ≤ round (10 * s) := by
    rw [round_eq]
    exact Int.le_floor.mpr (by push_cast; linarith)
  positivity

lemma counterAdd_mem :
    ∀ (acc : List (ℚ × ℕ)) (k : ℚ) (p : ℚ × ℕ),
      p ∈ counterAdd acc k → p ∈ acc ∨ p.1 = k
  | [], k, p, h => by
    simp only [counterAdd, List.mem_singleton] at h
    exact Or.inr (by rw [h])
  | (k', n) :: rest, k, p, h => by
    simp only [counterAdd] at h
    split at h
    next hk =>
      rcases List.mem_cons.mp h with h' | h'
      · refine Or.inr ?_
        rw [h']
        exact hk
      · exact Or.inl (List.mem_cons_of_mem _ h')
    next =>
      rcases List.mem_cons.mp h with h' | h'
      · exact Or.inl (h' ▸ List.mem_cons_self _ _)
      · rcases counterAdd_mem rest k p h' with h'' | h''
        · exact Or.inl (List.mem_cons_of_mem _ h'')
        · exact Or.inr h''

lemma countChar_keys_nonneg {acc : List (ℚ × ℕ)} {c : PdfChar}
    (hacc : ∀ p ∈ acc, 0 ≤ p.1) (hc : ∀ sz, c.size = some sz → 0 ≤ sz) :
    ∀ p ∈ countChar acc c, 0 ≤ p.1 := by
  intro p hp
  unfold countChar at hp
  split at hp
  next s h =>
    split at hp
    · rcases counterAdd_mem acc (round1 s) p hp with h' | h'
      · exact hacc p h'
      · rw [h']
        exact round1_nonneg (hc s h)
    · exact hacc p hp
  next => exact hacc p hp

lemma foldl_countChar_keys_nonneg :
    ∀ (chars : List PdfChar) (acc : List (ℚ × ℕ)),
      (∀ p ∈ acc, 0 ≤ p.1) →
      (∀ c ∈ chars, ∀ sz, c.size = some sz → 0 ≤ sz) →
      ∀ p ∈ chars.foldl countChar acc, 0 ≤ p.1
  | [], acc, hacc, _, p, hp => hacc p hp
  | c :: rest, acc, hacc, hchars, p, hp =>
    foldl_countChar_keys_nonneg rest (countChar acc c)
      (countChar_keys_nonneg hacc (hchars c (List.mem_cons_self _ _)))
      (fun c' hc' => hchars c' (List.mem_cons_of_mem _ hc')) p hp

lemma analyze_keys_nonneg :
    ∀ (pages : List (List PdfChar)) (acc : List (ℚ × ℕ)),
      (∀ p ∈ acc, 0 ≤ p.1) →
      (∀ chars ∈ pages, ∀ c ∈ chars, ∀ sz, c.size = some sz → 0 ≤ sz) →
      ∀ p ∈ pages.foldl (fun acc chars => chars.foldl countChar acc) acc, 0 ≤ p.1
  | [], acc, hacc, _, p, hp => hacc p hp
  | chars :: rest, acc, hacc, hpages, p, hp =>
    analyze_keys_nonneg rest (chars.foldl countChar acc)
      (foldl_countChar_keys_nonneg chars acc hacc
        (hpages chars (List.mem_cons_self _ _)))
      (fun cs hcs => hpages cs (List.mem_cons_of_mem _ hcs)) p hp

/-- C1: `_is_heading` holds iff the font profile is non-empty — so the body
size `b` is known — and `s ≥ 1.1 * b` and `s > b` and (the normalized text is
shorter than 100 characters or does not end in `.` or `,`); with an empty
profile it is always `false`, and over a document whose sized characters all
have non-negative sizes, a line with unknown dominant size (reported as `0`)
is never a heading. -/
theorem C1_is_heading_characterization :
    (∀ (fs : List (ℚ × ℕ)) (b : ℚ) (n : ℕ) (s : ℚ) (t : String),
       mostCommon1 fs = some (b, n) → stripStr t = t →
       (is_heading fs s t = true ↔
         (s ≥ b * (11 / 10) ∧ s > b ∧
           (t.length < 100 ∨
             (endsWithStr t "." = false ∧ endsWithStr t "," = false))))) ∧
    (∀ (s : ℚ) (t : String), is_heading [] s t = false) ∧
    (∀ (pages : List (List PdfChar)) (t : String),
       (∀ chars ∈ pages, ∀ c ∈ chars, ∀ sz, c.size = some sz → 0 ≤ sz) →
       is_heading (analyze_document_structure pages) 0 t = false) := by
  refine ⟨?_, fun s t => rfl, ?_⟩
  · intro fs b n s t h ht
    simp only [is_heading, h, ht, Bool.and_eq_true, Bool.or_eq_true,
      Bool.not_eq_true', decide_eq_true_eq, and_assoc]
  · intro pages t hsz
    match hmc : mostCommon1 (analyze_document_structure pages) with
    | none => simp [is_heading, hmc]
    | some (b, n) =>
      have hb : 0 ≤ b :=
        analyze_keys_nonneg pages [] (by simp) hsz (b, n) (mostCommon1_mem hmc)
      simp [is_heading, hmc, not_lt.mpr hb]

/-- Concrete instantiation of C1: with body size 12, a normalized 8-character
line at dominant size 24 is classified as a heading. -/
theorem C1_witness :
    is_heading [((12 : ℚ), 1)] 24 "Overview" = true := by
  have h := C1_is_heading_characterization.1 [((12 : ℚ), 1)] 12 1 24 "Overview"
    rfl (by decide)
  exact h.mpr ⟨by norm_num, by norm_num, Or.inl (by decide)⟩

/-! ### C6: the font-size histogram counts -/

/-- Lookup of a key's count in the Counter (0 when absent). -/
def counterCount : List (ℚ × ℕ) → ℚ → ℕ
  | [], _ => 0
  | (k', n) :: rest, k => if k' = k then n else counterCount rest k

/-- The count the claim asserts for bucket `k`: the number of characters with
a *present* size whose size rounds (1 decimal) to `k`. -/
def presentRoundedCount (chars : List PdfChar) (k : ℚ) : ℕ :=
  ((chars.filterMap (·.size)).filter fun s => decide (round1 s = k)).length

/-- The count the code actually produces for bucket `k`: only characters with
a present *and non-zero* (truthy) size are observed. -/
def truthyRoundedCount (chars : List PdfChar) (k : ℚ) : ℕ :=
  ((lineSizes chars).filter fun s => decide (round1 s = k)).length

/-- A character with a present size of exactly `0` — falsy in Python, so the
font-profile builder skips it. -/
def zeroSizeChar : PdfChar := ⟨"x", some 0, 0, 1, 0, 1⟩

/-- Counterexample to C6 as stated: a character with present size `0.0` is
skipped by `_analyze_document_structure` (Python truthiness of
`char.get('size')`), so the histogram's count for bucket `0.0` is `0` while
the claim demands `1`. -/
theorem C6_counterexample :
    counterCount (analyze_document_structure [[zeroSizeChar]]) 0 = 0 ∧
    presentRoundedCount [[zeroSizeChar]].flatten 0 = 1 ∧
    counterCount (analyze_document_structure [[zeroSizeChar]]) 0 ≠
      presentRoundedCount [[zeroSizeChar]].flatten 0 := by
  have h1 : analyze_document_structure [[zeroSizeChar]] = [] := rfl
  have h2 : presentRoundedCount [[zeroSizeChar]].flatten 0 = 1 := by
    have hr : round1 0 = 0 := by
      unfold round1
      norm_num
    simp [presentRoundedCount, zeroSizeChar, hr]
  refine ⟨by rw [h1]; rfl, h2, ?_⟩
  rw [h1, h2]
  decide

lemma counterCount_counterAdd :
    ∀ (c : List (ℚ × ℕ)) (k' k : ℚ),
      counterCount (counterAdd c k') k =
        counterCount c k + (if k' = k then 1 else 0)
  | [], k', k => by
    simp only [counterAdd, counterCount]
    split_ifs with h <;> simp
  | (a, n) :: rest, k', k => by
    by_cases h1 : a = k'
    · subst h1
      simp only [counterAdd, if_pos rfl, counterCount]
      by_cases h2 : a = k
      · rw [if_pos h2, if_pos h2, if_pos h2]
      · rw [if_neg h2, if_neg h2, if_neg h2]
        rfl
    · simp only [counterAdd, if_neg h1, counterCount]
      by_cases h2 : a = k
      · have hk : ¬k' = k := fun hkk => h1 (h2.trans hkk.symm)
        rw [if_pos h2, if_pos h2, if_neg hk]
        rfl
      · rw [if_neg h2, if_neg h2, counterCount_counterAdd rest k' k]

/-- The contribution of one character to the bucket `k` of the histogram. -/
def charContrib (c : PdfChar) (k : ℚ) : ℕ :=
  match c.size with
  | some s => if s ≠ 0 then (if round1 s = k then 1 else 0) else 0
  | none => 0

lemma truthyRoundedCount_nil (k : ℚ) : truthyRoundedCount [] k = 0 := rfl

lemma truthyRoundedCount_cons (c : PdfChar) (rest : List PdfChar) (k : ℚ) :
    truthyRoundedCount (c :: rest) k =
      charContrib c k + truthyRoundedCount rest k := by
  unfold truthyRoundedCount charContrib lineSizes
  match h : c.size with
  | none => simp [List.filterMap_cons, h]
  | some s =>
    simp only [List.filterMap_cons, h]
    split_ifs with h1 h2
    · simp [List.filter_cons, h2, Nat.add_comm]
    · simp [List.filter_cons, h2]
    · simp

lemma counterCount_countChar (acc : List (ℚ × ℕ)) (c : PdfChar) (k : ℚ) :
    counterCount (countChar acc c) k = counterCount acc k + charContrib c k := by
  unfold countChar charContrib
  match h : c.size with
  | none => simp [h]
  | some s =>
    simp only [h]
    split_ifs with h1 h2
    · rw [counterCount_counterAdd acc (round1 s) k, if_pos h2]
    · rw [counterCount_counterAdd acc (round1 s) k, if_neg h2]
    · simp

lemma counterCount_foldl_countChar :
    ∀ (chars : List PdfChar) (acc : List (ℚ × ℕ)) (k : ℚ),
      counterCount (chars.foldl countChar acc) k =
        counterCount acc k + truthyRoundedCount chars k
  | [], acc, k => by simp [truthyRoundedCount, lineSizes]
  | c :: rest, acc, k => by
    rw [List.foldl_cons, counterCount_foldl_countChar rest (countChar acc c) k,
      truthyRoundedCount_cons, counterCount_countChar]
    omega

lemma truthyRoundedCount_append (l1 l2 : List PdfChar) (k : ℚ) :
    truthyRoundedCount (l1 ++ l2) k =
      truthyRoundedCount l1 k + truthyRoundedCount l2 k := by
  unfold truthyRoundedCount lineSizes
  rw [List.filterMap_append, List.filter_append, List.length_append]

lemma counterCount_analyze :
    ∀ (pages : List (List PdfChar)) (acc : List (ℚ × ℕ)) (k : ℚ),
      counterCount (pages.foldl (fun acc chars => chars.foldl countChar acc) acc) k =
        counterCount acc k + truthyRoundedCount pages.flatten k
  | [], acc, k => by simp [truthyRoundedCount, lineSizes]
  | chars :: rest, acc, k => by
    rw [List.foldl_cons, counterCount_analyze rest (chars.foldl countChar acc) k,
      counterCount_foldl_countChar chars acc k, List.flatten_cons,
      truthyRoundedCount_append]
    omega

/-- C6 amended: for every bucket, the font profile's count equals the number
of characters with a present *non-zero* size rounding to that bucket (a
present size of `0` is falsy in Python and skipped), and the counts are
invariant under any permutation of the document's characters. -/
theorem C6_font_profile_counts :
    (∀ (pages : List (List PdfChar)) (k : ℚ),
       counterCount (analyze_document_structure pages) k =
         truthyRoundedCount pages.flatten k) ∧
    (∀ (pages pages' : List (List PdfChar)),
       pages.flatten.Perm pages'.flatten →
       ∀ k, counterCount (analyze_document_structure pages) k =
         counterCount (analyze_document_structure pages') k) := by
  have h1 : ∀ (pages : List (List PdfChar)) (k : ℚ),
      counterCount (analyze_document_structure pages) k =
        truthyRoundedCount pages.flatten k := by
    intro pages k
    have := counterCount_analyze pages [] k
    simpa [analyze_document_structure, counterCount] using this
  refine ⟨h1, ?_⟩
  intro pages pages' hperm k
  rw [h1, h1]
  unfold truthyRoundedCount lineSizes
  exact List.Perm.length_eq (List.Perm.filter _ (List.Perm.filterMap _ hperm))

/-- A size-12 character used in the C6 witness. -/
def charA12 : PdfChar := ⟨"a", some 12, 0, 1, 0, 1⟩

/-- A size-10 character used in the C6 witness. -/
def charB10 : PdfChar := ⟨"b", some 10, 0, 1, 2, 3⟩

/-- Concrete instantiation of C6 (amended): two sized characters distributed
over two pages in either order produce the same count for bucket `12`. -/
theorem C6_witness :
    counterCount (analyze_document_structure [[charA12], [charB10]]) 12 =
    counterCount (analyze_document_structure [[charB10], [charA12]]) 12 :=
  C6_font_profile_counts.2 [[charA12], [charB10]] [[charB10], [charA12]]
    (by
      have h1 : ([[charA12], [charB10]] : List (List PdfChar)).flatten =
          [charA12, charB10] := rfl
      have h2 : ([[charB10], [charA12]] : List (List PdfChar)).flatten =
          [charB10, charA12] := rfl
      rw [h1, h2]
      exact List.Perm.swap charB10 charA12 [])
    12

/-! ### C4: paragraph accumulation inside a block -/

/-- The block renderer exactly as the claim states it: one pass over the
lines in which the *heading decision itself* controls flushing — a line
classified as a heading flushes the pending paragraph buffer and is emitted
on its own, every other non-blank line accumulates into the buffer. -/
def process_text_block_claim (fontSizes : List (ℚ × ℕ))
    (block : List (List PdfChar)) : String :=
  String.intercalate "\n"
    (finishParagraphs
      (block.foldl
        (fun st line =>
          let pl := process_line line
          let cleaned := clean_text pl.1
          if cleaned = "" then st
          else if is_heading fontSizes pl.2 cleaned then
            (st.1 ++ (match st.2 with
                      | [] => []
                      | buf => [String.intercalate " " buf]) ++
              [format_as_heading fontSizes cleaned pl.2], [])
          else (st.1, st.2 ++ [cleaned]))
        ([], [])))

/-- The block renderer with the amended flushing rule: a single pass in which
the *rendered* line (heading-formatted or cleaned) flushes the buffer exactly
when it starts with `#` — which covers every heading and also any non-heading
line whose normalized text happens to begin with `#`. -/
def process_text_block_fused (fontSizes : List (ℚ × ℕ))
    (block : List (List PdfChar)) : String :=
  String.intercalate "\n"
    (finishParagraphs
      (block.foldl
        (fun st line => (render_line fontSizes line).elim st (paragraphStep st))
        ([], [])))

lemma foldl_filterMap_elim {α β γ : Type _} :
    ∀ (l : List α) (f : α → Option β) (g : γ → β → γ) (init : γ),
      (l.filterMap f).foldl g init =
        l.foldl (fun st a => (f a).elim st (g st)) init
  | [], _, _, _ => rfl
  | a :: l, f, g, init => by
    simp only [List.filterMap_cons, List.foldl_cons]
    match h : f a with
    | none =>
      simp only [h, Option.elim]
      exact foldl_filterMap_elim l f g init
    | some b =>
      simp only [h, Option.elim]
      exact foldl_filterMap_elim l f g (g init b)

/-- A non-heading line reading `hello`. -/
def helloChar : PdfChar := ⟨"hello", none, 0, 1, 0, 1⟩

/-- A non-heading line reading `#note` — its text begins with `#` without
being a heading. -/
def hashNoteChar : PdfChar := ⟨"#note", none, 0, 1, 2, 3⟩

lemma process_line_helloChar : process_line [helloChar] = ("hello", 0) := by
  simp only [process_line, List.mergeSort_singleton, helloChar]
  decide

lemma process_line_hashNoteChar : process_line [hashNoteChar] = ("#note", 0) := by
  simp only [process_line, List.mergeSort_singleton, hashNoteChar]
  decide

lemma render_line_helloChar : render_line [] [helloChar] = some "hello" := by
  simp only [render_line, process_line_helloChar]
  decide

lemma render_line_hashNoteChar : render_line [] [hashNoteChar] = some "#note" := by
  simp only [render_line, process_line_hashNoteChar]
  decide

/-- Counterexample to C4 as stated: with an empty font profile (so neither
line is a heading), the block `hello` / `#note` is rendered by
`_process_text_block` as two separate lines — phase 2 flushes on the `#` that
starts the *non-heading* text `#note` — whereas the claim says both
non-heading lines accumulate into one paragraph `hello #note`. -/
theorem C4_counterexample :
    process_text_block [] [[helloChar], [hashNoteChar]] = "hello\n#note" ∧
    process_text_block_claim [] [[helloChar], [hashNoteChar]] = "hello #note" ∧
    process_text_block [] [[helloChar], [hashNoteChar]] ≠
      process_text_block_claim [] [[helloChar], [hashNoteChar]] := by
  have hcode : process_text_block [] [[helloChar], [hashNoteChar]] =
      "hello\n#note" := by
    simp only [process_text_block, List.filterMap_cons, render_line_helloChar,
      render_line_hashNoteChar, List.filterMap_nil]
    decide
  have hclaim : process_text_block_claim [] [[helloChar], [hashNoteChar]] =
      "hello #note" := by
    simp only [process_text_block_claim, List.foldl_cons, List.foldl_nil,
      process_line_helloChar, process_line_hashNoteChar]
    decide
  refine ⟨hcode, hclaim, ?_⟩
  rw [hcode, hclaim]
  decide

/-- C4 amended: rendering a block processes its lines in order in one pass;
lines whose normalized text is empty are dropped; a line whose *rendered* text
starts with `#` — every heading, and also any non-heading line whose
normalized text begins with `#` — first flushes the pending paragraph buffer
(joined with single spaces) and is then emitted as its own line; every other
line accumulates into the buffer; the trailing buffer is flushed at block end,
and the block's output is the resulting lines joined by single line breaks. -/
theorem C4_block_rendering :
    ∀ (fontSizes : List (ℚ × ℕ)) (block : List (List PdfChar)),
      process_text_block fontSizes block =
        process_text_block_fused fontSizes block := by
  intro fs block
  match block with
  | [] => rfl
  | b :: bs =>
    simp only [process_text_block, process_text_block_fused]
    rw [foldl_filterMap_elim]

/-! ### C9: the document assembler -/

lemma foldl_append_filter {α : Type _} (f : α → String) :
    ∀ (l : List α) (acc : List String),
      l.foldl
        (fun acc page =>
          let page_content := f page
          if stripStr page_content = "" then acc else acc ++ [page_content])
        acc =
      acc ++ (l.map f).filter (fun md => decide (stripStr md ≠ ""))
  | [], acc => by simp
  | page :: rest, acc => by
    simp only [List.foldl_cons, List.map_cons, List.filter_cons]
    by_cases h : stripStr (f page) = ""
    · rw [if_pos h, foldl_append_filter f rest acc]
      have : (decide (stripStr (f page) ≠ "")) = false := by simp [h]
      rw [this]
      simp
    · rw [if_neg h, foldl_append_filter f rest (acc ++ [f page])]
      have : (decide (stripStr (f page) ≠ "")) = true := by simp [h]
      rw [this]
      simp

/-- C9: the top-level conversion renders every page with the document-wide
font profile, drops pages whose output is empty or whitespace-only, and joins
the remaining page outputs in page order with exactly one blank line
(`"\n\n"`) between them; a document with zero pages converts to `""`, and so
does a document all of whose pages render blank. -/
theorem C9_document_assembly :
    (∀ (pages : List Page),
       extract_text_with_formatting pages =
         String.intercalate "\n\n"
           (((pages.map
               (process_page (analyze_document_structure (pages.map (·.chars))))).filter
             (fun md => decide (stripStr md ≠ ""))))) ∧
    extract_text_with_formatting [] = "" ∧
    (∀ (pages : List Page),
       (∀ page ∈ pages,
          stripStr
            (process_page (analyze_document_structure (pages.map (·.chars))) page) =
            "") →
       extract_text_with_formatting pages = "") := by
  have h1 : ∀ (pages : List Page),
      extract_text_with_formatting pages =
        String.intercalate "\n\n"
          (((pages.map
              (process_page (analyze_document_structure (pages.map (·.chars))))).filter
            (fun md => decide (stripStr md ≠ "")))) := by
    intro pages
    simp only [extract_text_with_formatting]
    rw [foldl_append_filter
      (process_page (analyze_document_structure (pages.map (·.chars)))) pages []]
    rfl
  refine ⟨h1, rfl, ?_⟩
  intro pages hall
  rw [h1]
  have : ((pages.map
      (process_page (analyze_document_structure (pages.map (·.chars))))).filter
        (fun md => decide (stripStr md ≠ ""))) = [] := by
    rw [List.filter_eq_nil_iff]
    intro md hmd
    rcases List.mem_map.mp hmd with ⟨page, hpage, rfl⟩
    simp [hall page hpage]
  rw [this]
  rfl

/-- The empty page: no characters, no tables. -/
def emptyPage : Page := ⟨[], []⟩

lemma process_page_emptyPage (fs : List (ℚ × ℕ)) :
    process_page fs emptyPage = "" := by
  simp only [process_page, emptyPage, List.map_nil, List.append_nil,
    List.mergeSort_nil, List.filterMap_nil]
  rfl

/-- Concrete instantiation of C9: a one-page document whose page renders
blank converts to the empty string. -/
theorem C9_witness : extract_text_with_formatting [emptyPage] = "" := by
  refine C9_document_assembly.2.2 [emptyPage] ?_
  intro page hpage
  rw [List.mem_singleton.mp hpage, process_page_emptyPage]
  rfl

/-! ### C10: the line grouper partitions the characters -/

lemma x0le_trans : ∀ (a b c : PdfChar), x0le a b → x0le b c → x0le a c := by
  intro a b c hab hbc
  simp only [x0le, decide_eq_true_eq] at *
  exact le_trans hab hbc

lemma x0le_total : ∀ (a b : PdfChar), x0le a b || x0le b a := by
  intro a b
  simp only [x0le, Bool.or_eq_true, decide_eq_true_eq]
  exact le_total a.x0 b.x0

lemma pairwise_mergeSort_x0 (l : List PdfChar) :
    (l.mergeSort x0le).Pairwise fun a b => a.x0 ≤ b.x0 := by
  have h := List.sorted_mergeSort x0le_trans x0le_total l
  exact h.imp fun hab => by simpa [x0le] using hab

lemma mergeSort_ne_nil {l : List PdfChar} (h : l ≠ []) :
    l.mergeSort x0le ≠ [] := by
  intro hnil
  apply h
  have hlen : (l.mergeSort x0le).length = l.length := List.length_mergeSort l
  rw [hnil] at hlen
  exact List.length_eq_zero.mp hlen.symm

lemma group_chars_aux_spec :
    ∀ (rest cur : List PdfChar), cur ≠ [] →
      ((group_chars_aux cur rest).flatten.Perm (cur ++ rest) ∧
       ∀ l ∈ group_chars_aux cur rest,
         l ≠ [] ∧ l.Pairwise fun a b => a.x0 ≤ b.x0)
  | [], cur, hcur => by
    constructor
    · simp only [group_chars_aux, List.flatten_cons, List.flatten_nil,
        List.append_nil]
      exact List.mergeSort_perm cur x0le
    · intro l hl
      rw [List.mem_singleton.mp hl]
      exact ⟨mergeSort_ne_nil hcur, pairwise_mergeSort_x0 cur⟩
  | c :: rest, cur, hcur => by
    simp only [group_chars_aux]
    split_ifs with h
    · have ih := group_chars_aux_spec rest (cur ++ [c]) (by simp)
      constructor
      · have := ih.1
        rwa [List.append_assoc, List.singleton_append] at this
      · exact ih.2
    · have ih := group_chars_aux_spec rest [c] (by simp)
      constructor
      · rw [List.flatten_cons]
        have hperm := (List.mergeSort_perm cur x0le).append ih.1
        rwa [List.singleton_append] at hperm
      · intro l hl
        rcases List.mem_cons.mp hl with h' | h'
        · rw [h']
          exact ⟨mergeSort_ne_nil hcur, pairwise_mergeSort_x0 cur⟩
        · exact ih.2 l h'

/-- C10: the line grouper partitions its input — the concatenation of the
output lines is a permutation of the input characters (each character lands in
exactly one line), no output line is empty, every output line is sorted by
non-decreasing `x0`, and the empty input yields no lines. -/
theorem C10_line_partition :
    ∀ (chars : List PdfChar),
      ((group_chars_into_lines chars).flatten.Perm chars ∧
       (∀ l ∈ group_chars_into_lines chars, l ≠ []) ∧
       (∀ l ∈ group_chars_into_lines chars,
         l.Pairwise fun a b => a.x0 ≤ b.x0) ∧
       group_chars_into_lines [] = []) := by
  intro chars
  match chars with
  | [] => exact ⟨by simp [group_chars_into_lines], by simp [group_chars_into_lines],
      by simp [group_chars_into_lines], rfl⟩
  | c0 :: cs =>
    match hms : (c0 :: cs).mergeSort topX0le with
    | [] =>
      have hlen : ((c0 :: cs).mergeSort topX0le).length = (c0 :: cs).length :=
        List.length_mergeSort (c0 :: cs)
      rw [hms] at hlen
      exact absurd hlen.symm (by simp)
    | c :: rest =>
      have hperm : (c :: rest).Perm (c0 :: cs) := by
        rw [← hms]
        exact List.mergeSort_perm (c0 :: cs) topX0le
      have haux := group_chars_aux_spec rest [c] (by simp)
      have hmain : group_chars_into_lines (c0 :: cs) = group_chars_aux [c] rest := by
        simp only [group_chars_into_lines, hms]
      rw [hmain]
      refine ⟨?_, fun l hl => (haux.2 l hl).1, fun l hl => (haux.2 l hl).2, rfl⟩
      have h1 := haux.1
      rw [List.singleton_append] at h1
      exact h1.trans hperm

/-! ### C5: the block grouper's gap invariant and coverage -/

lemma group_lines_aux_spec (thr : ℚ) :
    ∀ (rest cur : List (List PdfChar)) (lst : List PdfChar),
      cur ≠ [] → cur.getLast? = some lst →
      cur.Chain' (fun l1 l2 => lineTop l2 - lineBottom l1 ≤ thr) →
      ((group_lines_aux thr cur (lineBottom lst) rest).flatten =
        cur ++ rest.filter (fun l => !l.isEmpty)) ∧
      (∀ b ∈ group_lines_aux thr cur (lineBottom lst) rest,
        b ≠ [] ∧ b.Chain' (fun l1 l2 => lineTop l2 - lineBottom l1 ≤ thr))
  | [], cur, lst, hcur, _, hchain => by
    constructor
    · simp [group_lines_aux]
    · intro b hb
      rw [List.mem_singleton.mp hb]
      exact ⟨hcur, hchain⟩
  | line :: rest, cur, lst, hcur, hlast, hchain => by
    match line with
    | [] =>
      have ih := group_lines_aux_spec thr rest cur lst hcur hlast hchain
      simp only [group_lines_aux]
      constructor
      · rw [ih.1]
        simp [List.filter_cons]
      · exact ih.2
    | lc :: lcs =>
      simp only [group_lines_aux]
      split_ifs with h
      · have ih := group_lines_aux_spec thr rest [lc :: lcs] (lc :: lcs)
          (by simp) rfl (List.chain'_singleton _)
        constructor
        · rw [List.flatten_cons, ih.1, List.singleton_append,
            List.filter_cons_of_pos (by simp)]
        · intro b hb
          rcases List.mem_cons.mp hb with h' | h'
          · rw [h']
            exact ⟨hcur, hchain⟩
          · exact ih.2 b h'
      · have hgap : lineTop (lc :: lcs) - lineBottom lst ≤ thr := not_lt.mp h
        have hchain' :
            (cur ++ [lc :: lcs]).Chain'
              (fun l1 l2 => lineTop l2 - lineBottom l1 ≤ thr) := by
          rw [List.chain'_append]
          refine ⟨hchain, List.chain'_singleton _, ?_⟩
          intro x hx y hy
          rw [hlast] at hx
          simp only [Option.mem_some_iff] at hx
          simp only [List.head?_cons, Option.mem_some_iff] at hy
          subst hx
          subst hy
          exact hgap
        have ih := group_lines_aux_spec thr rest (cur ++ [lc :: lcs])
          (lc :: lcs) (by simp) (List.getLast?_concat cur) hchain'
        constructor
        · rw [ih.1, List.append_assoc, List.singleton_append,
            List.filter_cons_of_pos (by simp)]
        · exact ih.2

lemma group_lines_start_spec (thr : ℚ) :
    ∀ (lines : List (List PdfChar)),
      ((group_lines_start thr lines).flatten =
        lines.filter (fun l => !l.isEmpty)) ∧
      (∀ b ∈ group_lines_start thr lines,
        b ≠ [] ∧ b.Chain' (fun l1 l2 => lineTop l2 - lineBottom l1 ≤ thr))
  | [] => by constructor <;> simp [group_lines_start]
  | line :: rest => by
    match line with
    | [] =>
      have ih := group_lines_start_spec thr rest
      simp only [group_lines_start]
      constructor
      · rw [ih.1]
        simp [List.filter_cons]
      · exact ih.2
    | lc :: lcs =>
      simp only [group_lines_start]
      have haux := group_lines_aux_spec thr rest [lc :: lcs] (lc :: lcs)
        (by simp) rfl (List.chain'_singleton _)
      constructor
      · rw [haux.1, List.singleton_append, List.filter_cons_of_pos (by simp)]
      · exact haux.2

/-- C5: the block grouper covers exactly the non-empty lines, in order — the
concatenation of the produced blocks equals the input lines with empty lines
dropped (hence blocks are contiguous, non-overlapping, and cover each
non-empty line exactly once) — no block is empty, and within a block every two
consecutive lines have vertical gap (next line's min top minus previous line's
max bottom) at most `1.5 ×` the median of the lines' dominant sizes; a line
whose gap exceeds that threshold therefore starts a new block. -/
theorem C5_block_grouping :
    ∀ (lines : List (List PdfChar)),
      ((group_lines_into_blocks lines).flatten =
        lines.filter (fun l => !l.isEmpty)) ∧
      (∀ b ∈ group_lines_into_blocks lines, b ≠ []) ∧
      (∀ b ∈ group_lines_into_blocks lines,
        b.Chain' (fun l1 l2 =>
          lineTop l2 - lineBottom l1 ≤ 3 / 2 * get_median_line_height lines)) := by
  intro lines
  match lines with
  | [] => exact ⟨rfl, by simp [group_lines_into_blocks], by simp [group_lines_into_blocks]⟩
  | l0 :: ls =>
    have hmain : group_lines_into_blocks (l0 :: ls) =
        group_lines_start (3 / 2 * get_median_line_height (l0 :: ls)) (l0 :: ls) := by
      simp only [group_lines_into_blocks]
    have hstart := group_lines_start_spec
      (3 / 2 * get_median_line_height (l0 :: ls)) (l0 :: ls)
    rw [hmain]
    exact ⟨hstart.1, fun b hb => (hstart.2 b hb).1, fun b hb => (hstart.2 b hb).2⟩

end GarakPDF
